import Mathlib

/-!
Verification of the change-detection and approval state machine of the
changelog-monitor worker (src/index.ts).

The development is a shallow embedding of the relevant source functions:

* `calculateDiff` embeds the source function of the same name (src/index.ts,
  lines 455-507).  The external jsdiff `diffLines` call is modelled by
  `splitLinesKeepNl` (the line tokenizer, each line keeping its trailing
  newline), a minimal line-level edit script `lineDiff`, and `mergeRuns`
  (jsdiff merges adjacent tokens of the same kind into one change part).
  The rendering loop, the trailing-newline fixups and the final
  `replace` of the trailing newline run are translated statement by
  statement (`renderStep`, `collapseTrailingNl`).
* `withRetryRun` embeds `withRetry` (lines 107-133); the backoff delays are
  real-time behaviour with no effect on the returned value and are not
  modelled.
* `detectCycle` embeds the body of `handleScheduled` (lines 201-259) as a
  state transition on the stored snapshot (KV key
  "latest_changelog_markdown").  External collaborators are oracles in
  `CycleEnv`: the fetch attempts (`fetchOracle`, consumed through
  `withRetryRun` exactly as in the source), the Gemini recap
  (`recap`, `none` when the call failed or returned no text), the generated
  UUID, the configured URL, the timestamp string and the current time in
  seconds (used for the `expirationTtl: 86400` creation write).  The diff
  engine is a parameter `d`; the production instantiation is
  `handleScheduledCycle = detectCycle calculateDiff`.  HTML normalisation
  happens before the content reaches the comparison, so `fetchOracle`
  yields the normalised markdown.  The `CycleResult` field records the
  specification-level classification of each source path (NoChange /
  ChangeDetected / error abort); Telegram messages are recorded as
  `Notice` values.
* `confirmStep` embeds the POST /confirm background task (lines 343-386)
  as a transition on the single KV record `post:<id>` that the handler
  touches.  Values are stored typed; JSON.stringify/JSON.parse round-trips
  are modelled as the identity.  Cloudflare KV expiration is modelled in
  `kvGetPost`: a record whose expiry time has passed reads as absent.  The
  publisher outcome (`postToX` never throws: it catches internally and
  returns a success flag) is the oracle `publishOk`.
* `confStep` / `runRace` decompose the same handler at its await
  boundaries (the KV get, the publisher call, the KV put are separate
  awaited operations with no conditional write) and interleave two
  concurrent invocations under an explicit schedule.
* `postToXTweetText` embeds the truncation at the top of `postToX`
  (lines 624-630).  JS string length and `substring` act on UTF-16 code
  units, abstracted here as the character sequence of a Lean `String`.
-/

/-! ## Diff engine: line tokenizer, edit script, change parts -/

/-- Kind of a diff entry: an unchanged, added or removed line. -/
inductive Edit
  | keep
  | add
  | del
deriving DecidableEq

/-- Lines of a text, each keeping its trailing newline.  Model of the
jsdiff line tokenizer used by `diffLines` (empty tokens never arise, as
after jsdiff removeEmpty). -/
def splitLinesKeepNl : List Char → List (List Char)
  | [] => []
  | c :: cs =>
    if c = '\n' then ['\n'] :: splitLinesKeepNl cs
    else
      match splitLinesKeepNl cs with
      | [] => [[c]]
      | l :: ls => (c :: l) :: ls

/-- Number of non-`keep` entries of an edit script. -/
def editCost (es : List (Edit × List Char)) : Nat :=
  (es.filter (fun e => e.1 ≠ Edit.keep)).length

/-- Minimal line-level edit script between two token lists: model of the
jsdiff `diffLines` core (an insert/delete edit script of minimal length,
computed here by the textbook recursion). -/
def lineDiff : List (List Char) → List (List Char) → List (Edit × List Char)
  | [], ys => ys.map (fun y => (Edit.add, y))
  | x :: xs, [] => (x :: xs).map (fun z => (Edit.del, z))
  | x :: xs, y :: ys =>
    if x = y then (Edit.keep, x) :: lineDiff xs ys
    else if editCost (lineDiff (x :: xs) ys) ≤ editCost (lineDiff xs (y :: ys)) then
      (Edit.add, y) :: lineDiff (x :: xs) ys
    else
      (Edit.del, x) :: lineDiff xs (y :: ys)
termination_by a b => a.length + b.length

/-- Merge adjacent entries of the same kind, concatenating their token
text: jsdiff returns one change part per maximal run of same-kind
tokens, with `value` the concatenation of the tokens of the run. -/
def mergeRuns : List (Edit × List Char) → List (Edit × List Char)
  | [] => []
  | (t, v) :: rest =>
    match mergeRuns rest with
    | [] => [(t, v)]
    | (t', v') :: cs => if t' = t then (t, v ++ v') :: cs else (t, v) :: (t', v') :: cs

/-! ## Rendering (`calculateDiff`, src/index.ts lines 455-507) -/

/-- Model of the JavaScript `value.split('\n')`: split at every newline,
never dropping empty pieces, one piece even for the empty string. -/
def jsSplitNl : List Char → List (List Char)
  | [] => [[]]
  | c :: cs =>
    if c = '\n' then [] :: jsSplitNl cs
    else
      match jsSplitNl cs with
      | [] => [[c]]
      | l :: ls => (c :: l) :: ls

/-- Join pieces with a newline between them: model of `array.join('\n')`. -/
def joinSep : List (List Char) → List Char
  | [] => []
  | [l] => l
  | l :: ls => l ++ '\n' :: joinSep ls

/-- The two-character marker the renderer puts before an added or a
removed line (`"+ "` and `"- "` in the source). -/
def markOf : Edit → List Char
  | Edit.add => ['+', ' ']
  | Edit.del => ['-', ' ']
  | Edit.keep => []

/-- Rendering of one added or removed part:
`part.value.split('\n').map(line => mark + line).join('\n')`. -/
def renderPart (t : Edit) (v : List Char) : List Char :=
  joinSep ((jsSplitNl v).map (fun l => markOf t ++ l))

/-- One iteration of the `differences.forEach` loop of `calculateDiff`:
unchanged parts render nothing (the context rendering in the source is
commented out); added and removed parts append their rendering and then
fix up the trailing newline exactly as the source does (append a newline
unless the value ended with a newline and the accumulated result already
ends with one). -/
def renderStep (acc : List Char × Bool) (p : Edit × List Char) : List Char × Bool :=
  match p.1 with
  | Edit.keep => acc
  | Edit.add =>
    let r := acc.1 ++ renderPart Edit.add p.2
    if p.2.getLast? = some '\n' then
      (if r.getLast? = some '\n' then (r, true) else (r ++ ['\n'], true))
    else (r ++ ['\n'], true)
  | Edit.del =>
    let r := acc.1 ++ renderPart Edit.del p.2
    if p.2.getLast? = some '\n' then
      (if r.getLast? = some '\n' then (r, true) else (r ++ ['\n'], true))
    else (r ++ ['\n'], true)

/-- Model of `diffResult.replace(/\n+$/, "\n")`: collapse a trailing run
of newlines to a single newline (identity when there is no trailing
newline). -/
def collapseTrailingNl (l : List Char) : List Char :=
  if (l.reverse.dropWhile (fun c => c = '\n')).length = l.length then l
  else (l.reverse.dropWhile (fun c => c = '\n')).reverse ++ ['\n']

/-- The sentinel `calculateDiff` returns when no line was added or
removed. -/
def noDiffSentinel : String := "No textual differences found."

/-- Embedding of `calculateDiff` (src/index.ts lines 455-507): diff the
two texts line by line, render added lines with a `"+ "` marker and
removed lines with a `"- "` marker, collapse trailing newlines, and
return the sentinel when no line changed. -/
def calculateDiff (oldText newText : String) : String :=
  let differences :=
    mergeRuns (lineDiff (splitLinesKeepNl oldText.data) (splitLinesKeepNl newText.data))
  let resPair := differences.foldl renderStep ([], false)
  let diffResult := collapseTrailingNl resPair.1
  if resPair.2 = false then noDiffSentinel else String.mk diffResult

/-- Closed form of the rendering loop: the chunks contributed by the
added and removed parts, in order (proved equal to the fold below). -/
def renderAll : List (Edit × List Char) → List Char
  | [] => []
  | (t, v) :: rest =>
    if t = Edit.keep then renderAll rest else renderPart t v ++ '\n' :: renderAll rest

/-! ## Retry helper (`withRetry`, src/index.ts lines 107-133) -/

/-- The retry configuration of the source (`RETRY_CONFIG`).  Delays are
wall-clock behaviour and do not influence any returned value. -/
structure RetryConfig where
  maxAttempts : Nat
  initialDelay : Nat
  maxDelay : Nat
  backoffMultiplier : Nat
deriving DecidableEq

/-- The constant `RETRY_CONFIG` from the source: 3 attempts, 1 s initial delay, 10 s
cap, multiplier 2. -/
def RETRY_CONFIG : RetryConfig := ⟨3, 1000, 10000, 2⟩

/-- The retry loop: try `f` at the current attempt number, return the
first success, recurse while fuel remains, and rethrow the last error
once attempts are exhausted. -/
def withRetry (f : Nat → Except String α) (attempt fuel : Nat) : Except String α :=
  match f attempt with
  | Except.ok a => Except.ok a
  | Except.error e =>
    match fuel with
    | 0 => Except.error e
    | fuel' + 1 => withRetry f (attempt + 1) fuel'

/-- The function `withRetry` as called by the source: attempts numbered from 1, at
most `cfg.maxAttempts` of them. -/
def withRetryRun (cfg : RetryConfig) (f : Nat → Except String α) : Except String α :=
  withRetry f 1 (cfg.maxAttempts - 1)

/-! ## Draft records (KV values under `post:<id>`) -/

/-- Status of a pending post, as stored in KV (src/index.ts line 33). -/
inductive PostStatus
  | pendingConfirmation
  | postedToX
  | failedToPost
deriving DecidableEq

/-- The `PendingPostData` record persisted under `post:<id>`
(src/index.ts lines 28-34). -/
structure PendingPostData where
  recap : String
  diff : String
  originalChangelogUrl : String
  timestamp : String
  status : PostStatus
deriving DecidableEq

/-- A KV entry together with its expiration metadata: a `put` with
`expirationTtl` stores an absolute expiry time, a `put` without one
stores none (Cloudflare KV drops any previous expiration on overwrite). -/
structure PostEntry where
  data : PendingPostData
  expiresAt : Option Nat
deriving DecidableEq

/-- A KV read of a draft record at time `now`: an entry whose expiry time
has passed reads as absent. -/
def kvGetPost (now : Nat) (entry : Option PostEntry) : Option PendingPostData :=
  match entry with
  | none => none
  | some e =>
    match e.expiresAt with
    | none => some e.data
    | some t => if t ≤ now then none else some e.data

/-- Telegram messages sent by the worker, by kind. -/
inductive Notice
  | errorReport
  | confirmationRequest
  | notFoundExpired
  | alreadyPublishedInfo
  | notPendingError
  | postSuccess
  | postFailure
deriving DecidableEq

/-! ## Detection cycle (`handleScheduled`, src/index.ts lines 201-259) -/

/-- Specification-level classification of a detection cycle outcome. -/
inductive CycleResult
  | noChange
  | changeDetected (diff : String)
  | cycleError (msg : String)
deriving DecidableEq

/-- Oracles for the external collaborators of one detection cycle. -/
structure CycleEnv where
  fetchOracle : Nat → Except String String
  recap : Option String
  draftId : String
  url : String
  timestampStr : String
  now : Nat

/-- Result of one detection cycle: the stored snapshot afterwards, the
draft record written this cycle (if any) with its KV key, the
classification of the path taken, and the notifications sent. -/
structure CycleOut where
  snapshot : Option String
  newDraft : Option (String × PostEntry)
  result : CycleResult
  notices : List Notice
deriving DecidableEq

/-- Embedding of the body of `handleScheduled` (src/index.ts lines
201-259), parameterised by the diff engine `d` (the source calls
`calculateDiff`; see `handleScheduledCycle`).  Paths, in source order:
fetch failure after retries aborts with an error report and no mutation;
a missing snapshot stores the fetched content and stops (first-run
bootstrap, line 218-220); byte-identical content stops (line 221); a
diff classified with the sentinel skips recap and draft but the source
still executes the `put` of line 253, overwriting the snapshot; a
substantive diff creates the draft with `expirationTtl: 86400`
(line 244) when the recap oracle yields text, notifies, and overwrites
the snapshot. -/
def detectCycle (d : String → String → String) (env : CycleEnv) (snap : Option String) :
    CycleOut :=
  match withRetryRun RETRY_CONFIG env.fetchOracle with
  | Except.error e =>
    { snapshot := snap, newDraft := none, result := CycleResult.cycleError e,
      notices := [Notice.errorReport] }
  | Except.ok markdownContent =>
    match snap with
    | none =>
      { snapshot := some markdownContent, newDraft := none,
        result := CycleResult.noChange, notices := [] }
    | some previousMarkdown =>
      if previousMarkdown = markdownContent then
        { snapshot := some previousMarkdown, newDraft := none,
          result := CycleResult.noChange, notices := [] }
      else
        if d previousMarkdown markdownContent = noDiffSentinel then
          { snapshot := some markdownContent, newDraft := none,
            result := CycleResult.noChange, notices := [] }
        else
          match env.recap with
          | some recapText =>
            { snapshot := some markdownContent,
              newDraft := some ("post:" ++ env.draftId,
                { data := { recap := recapText,
                            diff := d previousMarkdown markdownContent,
                            originalChangelogUrl := env.url,
                            timestamp := env.timestampStr,
                            status := PostStatus.pendingConfirmation },
                  expiresAt := some (env.now + 86400) }),
              result := CycleResult.changeDetected (d previousMarkdown markdownContent),
              notices := [Notice.confirmationRequest] }
          | none =>
            { snapshot := some markdownContent, newDraft := none,
              result := CycleResult.changeDetected (d previousMarkdown markdownContent),
              notices := [] }

/-- The production detection cycle: the diff engine is `calculateDiff`. -/
def handleScheduledCycle (env : CycleEnv) (snap : Option String) : CycleOut :=
  detectCycle calculateDiff env snap

/-! ## Confirmation (`POST /confirm/<id>` background task, lines 343-386) -/

/-- Specification-level outcome of one confirm invocation. -/
inductive ConfirmResult
  | notFound
  | alreadyPublished
  | notPending
  | published
  | publishFailed
deriving DecidableEq

/-- Result of one confirm invocation: the KV record for the draft id
afterwards, the outcome, how many times the publisher was invoked, and
the notifications sent. -/
structure ConfirmOut where
  entry : Option PostEntry
  result : ConfirmResult
  pubCalls : Nat
  notices : List Notice
deriving DecidableEq

/-- Embedding of the confirm background task (src/index.ts lines
343-386) as one sequential transition on the `post:<id>` record: absent
or expired record reports not-found (lines 349-353); `POSTED_TO_X`
reports an idempotent duplicate (lines 357-361); any other non-pending
status is rejected (lines 363-367); otherwise `postToX` is invoked once
(it never throws: it catches internally and returns a success flag) and
the record is rewritten with the outcome status by a `put` without
`expirationTtl` (lines 369-380), so the rewritten entry carries no
expiry. -/
def confirmStep (now : Nat) (entry : Option PostEntry) (publishOk : Bool) : ConfirmOut :=
  match kvGetPost now entry with
  | none =>
    { entry := entry, result := ConfirmResult.notFound, pubCalls := 0,
      notices := [Notice.notFoundExpired] }
  | some pendingPost =>
    if pendingPost.status = PostStatus.postedToX then
      { entry := entry, result := ConfirmResult.alreadyPublished, pubCalls := 0,
        notices := [Notice.alreadyPublishedInfo] }
    else if pendingPost.status ≠ PostStatus.pendingConfirmation then
      { entry := entry, result := ConfirmResult.notPending, pubCalls := 0,
        notices := [Notice.notPendingError] }
    else if publishOk then
      { entry := some { data := { pendingPost with status := PostStatus.postedToX },
                        expiresAt := none },
        result := ConfirmResult.published, pubCalls := 1,
        notices := [Notice.postSuccess] }
    else
      { entry := some { data := { pendingPost with status := PostStatus.failedToPost },
                        expiresAt := none },
        result := ConfirmResult.publishFailed, pubCalls := 1,
        notices := [Notice.postFailure] }

/-! ## Interleaved confirmations (the same handler cut at its awaits) -/

/-- Program counter of one confirm invocation, cut at the await
boundaries of the source: before the KV `get` (line 347), before the
`postToX` call (line 370), before the KV `put` (lines 373/377), done. -/
inductive ConfLoc
  | atStart
  | atPublish (post : PendingPostData)
  | atWrite (post : PendingPostData) (ok : Bool)
  | finishedAt (r : ConfirmResult)
deriving DecidableEq

/-- One atomic step of one confirm invocation against the shared KV
record: the get-and-check, the publisher call, or the outcome write.
The source performs these as separate awaited operations with no
conditional (compare-and-swap) write, which is exactly what this
decomposition captures. -/
def confStep (now : Nat) (ok : Bool) (shared : Option PostEntry) :
    ConfLoc → Option PostEntry × ConfLoc × Nat
  | ConfLoc.atStart =>
    match kvGetPost now shared with
    | none => (shared, ConfLoc.finishedAt ConfirmResult.notFound, 0)
    | some post =>
      if post.status = PostStatus.postedToX then
        (shared, ConfLoc.finishedAt ConfirmResult.alreadyPublished, 0)
      else if post.status ≠ PostStatus.pendingConfirmation then
        (shared, ConfLoc.finishedAt ConfirmResult.notPending, 0)
      else (shared, ConfLoc.atPublish post, 0)
  | ConfLoc.atPublish post => (shared, ConfLoc.atWrite post ok, 1)
  | ConfLoc.atWrite post ok' =>
    if ok' then
      (some { data := { post with status := PostStatus.postedToX }, expiresAt := none },
       ConfLoc.finishedAt ConfirmResult.published, 0)
    else
      (some { data := { post with status := PostStatus.failedToPost }, expiresAt := none },
       ConfLoc.finishedAt ConfirmResult.publishFailed, 0)
  | ConfLoc.finishedAt r => (shared, ConfLoc.finishedAt r, 0)

/-- Shared state of two racing confirm invocations for the same draft
id: the shared KV record, the program counter of each invocation, and the
total number of publisher invocations. -/
structure RaceState where
  shared : Option PostEntry
  locA : ConfLoc
  locB : ConfLoc
  pubCalls : Nat
deriving DecidableEq

/-- Advance invocation A (`choice = true`) or B by one atomic step. -/
def raceStep (now : Nat) (okA okB : Bool) (s : RaceState) (choice : Bool) : RaceState :=
  if choice then
    let r := confStep now okA s.shared s.locA
    { s with shared := r.1, locA := r.2.1, pubCalls := s.pubCalls + r.2.2 }
  else
    let r := confStep now okB s.shared s.locB
    { s with shared := r.1, locB := r.2.1, pubCalls := s.pubCalls + r.2.2 }

/-- Run two racing confirm invocations under an explicit schedule. -/
def runRace (now : Nat) (okA okB : Bool) (sched : List Bool) (s : RaceState) : RaceState :=
  sched.foldl (raceStep now okA okB) s

/-! ## Tweet truncation (`postToX`, src/index.ts lines 617-632) -/

/-- The constant `MAX_TWEET_LENGTH` from the source. -/
def MAX_TWEET_LENGTH : Nat := 280

/-- Embedding of the truncation at the top of `postToX` (lines 624-630):
the text actually sent to the publisher. -/
def postToXTweetText (recap : String) : String :=
  if recap.length > MAX_TWEET_LENGTH then
    String.mk (recap.data.take (MAX_TWEET_LENGTH - 3)) ++ "..."
  else recap

/-! ## Lemmas about the line tokenizer -/

/-- The line tokens of a text concatenate back to the text. -/
theorem splitLines_join (s : List Char) : (splitLinesKeepNl s).flatten = s := by
  induction s with
  | nil => rfl
  | cons c cs ih =>
    by_cases h : c = '\n'
    · subst h
      simp [splitLinesKeepNl, ih]
    · simp only [splitLinesKeepNl, if_neg h]
      cases hs : splitLinesKeepNl cs with
      | nil =>
        rw [hs] at ih
        simp at ih
        simp [← ih]
      | cons l ls =>
        rw [hs] at ih
        simp at ih ⊢
        rw [← ih]

/-- Line tokenization is injective. -/
theorem splitLines_inj {a b : List Char} (h : splitLinesKeepNl a = splitLinesKeepNl b) :
    a = b := by
  have ha := splitLines_join a
  have hb := splitLines_join b
  rw [h, hb] at ha
  exact ha.symm

/-! ## Lemmas about the edit script -/

/-- The edit script of a text against itself keeps every line. -/
theorem lineDiff_self (xs : List (List Char)) :
    lineDiff xs xs = xs.map (fun x => (Edit.keep, x)) := by
  induction xs with
  | nil => simp [lineDiff]
  | cons x xs ih => simp [lineDiff, ih]

/-- An edit script with no added and no removed entry only arises between
equal token lists. -/
theorem lineDiff_eq_of_allKeep_aux :
    ∀ (n : Nat) (xs ys : List (List Char)), xs.length + ys.length ≤ n →
      (∀ e ∈ lineDiff xs ys, e.1 = Edit.keep) → xs = ys := by
  intro n
  induction n with
  | zero =>
    intro xs ys hlen _
    cases xs with
    | nil =>
      cases ys with
      | nil => rfl
      | cons y ys => simp at hlen
    | cons x xs => simp at hlen
  | succ n ih =>
    intro xs ys hlen h
    match xs, ys with
    | [], [] => rfl
    | [], y :: ys =>
      exact absurd (h (Edit.add, y) (by simp [lineDiff])) (by simp)
    | x :: xs, [] =>
      exact absurd (h (Edit.del, x) (by simp [lineDiff])) (by simp)
    | x :: xs, y :: ys =>
      by_cases hxy : x = y
      · subst hxy
        have h' : ∀ e ∈ lineDiff xs ys, e.1 = Edit.keep := by
          intro e he
          exact h e (by simp [lineDiff]; exact Or.inr he)
        have hx : xs = ys := ih xs ys (by simp at hlen; omega) h'
        rw [hx]
      · exfalso
        by_cases hc : editCost (lineDiff (x :: xs) ys) ≤ editCost (lineDiff xs (y :: ys))
        · exact absurd (h (Edit.add, y) (by simp [lineDiff, hxy, hc])) (by simp)
        · exact absurd (h (Edit.del, x) (by simp [lineDiff, hxy, hc])) (by simp)

/-- Wrapper of the previous lemma without the fuel argument. -/
theorem lineDiff_eq_of_allKeep {xs ys : List (List Char)}
    (h : ∀ e ∈ lineDiff xs ys, e.1 = Edit.keep) : xs = ys :=
  lineDiff_eq_of_allKeep_aux (xs.length + ys.length) xs ys le_rfl h

/-! ## Lemmas about run merging -/

/-- Merging the runs of an all-keep script yields an all-keep part list. -/
theorem mergeRuns_keep_of : ∀ (l : List (Edit × List Char)),
    (∀ e ∈ l, e.1 = Edit.keep) → ∀ e ∈ mergeRuns l, e.1 = Edit.keep := by
  intro l
  induction l with
  | nil => intro _ e he; simp [mergeRuns] at he
  | cons p rest ih =>
    intro h e he
    obtain ⟨t, v⟩ := p
    have ht : t = Edit.keep := h (t, v) (List.mem_cons_self _ _)
    have hrest : ∀ e' ∈ rest, e'.1 = Edit.keep :=
      fun e' he' => h e' (List.mem_cons_of_mem _ he')
    simp only [mergeRuns] at he
    cases hm : mergeRuns rest with
    | nil =>
      rw [hm] at he
      simp at he
      rw [he]
      exact ht
    | cons q cs =>
      obtain ⟨t', v'⟩ := q
      rw [hm] at he
      have he2 : e ∈ (if t' = t then (t, v ++ v') :: cs else (t, v) :: (t', v') :: cs) := he
      by_cases hq : t' = t
      · rw [if_pos hq] at he2
        rcases List.mem_cons.1 he2 with rfl | he'
        · exact ht
        · exact ih hrest e (hm ▸ List.mem_cons_of_mem _ he')
      · rw [if_neg hq] at he2
        rcases List.mem_cons.1 he2 with rfl | he'
        · exact ht
        · exact ih hrest e (hm ▸ he')

/-- Merging the runs of a nonempty script yields a nonempty part list. -/
theorem mergeRuns_ne_nil (p : Edit × List Char) (rest : List (Edit × List Char)) :
    mergeRuns (p :: rest) ≠ [] := by
  obtain ⟨t, v⟩ := p
  simp only [mergeRuns]
  cases mergeRuns rest with
  | nil => simp
  | cons q cs =>
    obtain ⟨t', v'⟩ := q
    by_cases hq : t' = t
    · simp [hq]
    · simp [hq]

/-- If every merged part is a keep part, the original script was
all-keep. -/
theorem allKeep_of_mergeRuns : ∀ (l : List (Edit × List Char)),
    (∀ e ∈ mergeRuns l, e.1 = Edit.keep) → ∀ e ∈ l, e.1 = Edit.keep := by
  intro l
  induction l with
  | nil => intro _ e he; simp at he
  | cons p rest ih =>
    intro h e he
    obtain ⟨t, v⟩ := p
    simp only [mergeRuns] at h
    cases hm : mergeRuns rest with
    | nil =>
      have hrest : rest = [] := by
        cases rest with
        | nil => rfl
        | cons q rest' => exact absurd hm (mergeRuns_ne_nil q rest')
      subst hrest
      rw [hm] at h
      simp at h he
      rw [he]
      exact h
    | cons q cs =>
      obtain ⟨t', v'⟩ := q
      rw [hm] at h
      have h2 : ∀ e ∈ (if t' = t then (t, v ++ v') :: cs else (t, v) :: (t', v') :: cs),
          e.1 = Edit.keep := h
      by_cases hq : t' = t
      · rw [if_pos hq] at h2
        have ht : t = Edit.keep := h2 (t, v ++ v') (List.mem_cons_self _ _)
        have hmerged : ∀ e' ∈ mergeRuns rest, e'.1 = Edit.keep := by
          intro e' he'
          rw [hm] at he'
          rcases List.mem_cons.1 he' with rfl | he''
          · rw [hq, ht]
          · exact h2 e' (List.mem_cons_of_mem _ he'')
        rcases List.mem_cons.1 he with rfl | he'
        · exact ht
        · exact ih hmerged e he'
      · rw [if_neg hq] at h2
        have ht : t = Edit.keep := h2 (t, v) (List.mem_cons_self _ _)
        have hmerged : ∀ e' ∈ mergeRuns rest, e'.1 = Edit.keep := by
          intro e' he'
          rw [hm] at he'
          exact h2 e' (List.mem_cons_of_mem _ he')
        rcases List.mem_cons.1 he with rfl | he'
        · exact ht
        · exact ih hmerged e he'

/-! ## Lemmas about the JS split, join and getLast helpers -/

/-- A JS split always yields at least one piece. -/
theorem jsSplitNl_ne_nil (l : List Char) : jsSplitNl l ≠ [] := by
  cases l with
  | nil => simp [jsSplitNl]
  | cons c cs =>
    simp only [jsSplitNl]
    by_cases h : c = '\n'
    · simp [h]
    · rw [if_neg h]
      cases jsSplitNl cs with
      | nil => simp
      | cons l ls => simp

/-- No piece of a JS split contains a newline. -/
theorem jsSplitNl_no_nl : ∀ {l m : List Char}, m ∈ jsSplitNl l → '\n' ∉ m := by
  intro l
  induction l with
  | nil =>
    intro m hm
    simp [jsSplitNl] at hm
    simp [hm]
  | cons c cs ih =>
    intro m hm
    simp only [jsSplitNl] at hm
    by_cases h : c = '\n'
    · rw [if_pos h] at hm
      rcases List.mem_cons.1 hm with rfl | hm'
      · simp
      · exact ih hm'
    · rw [if_neg h] at hm
      cases hs : jsSplitNl cs with
      | nil => exact absurd hs (jsSplitNl_ne_nil cs)
      | cons l ls =>
        rw [hs] at hm
        have hl : l ∈ jsSplitNl cs := hs ▸ List.mem_cons_self _ _
        rcases List.mem_cons.1 hm with rfl | hm'
        · intro hc
          rcases List.mem_cons.1 hc with hc' | hc'
          · exact h hc'.symm
          · exact ih hl hc'
        · exact ih (hs ▸ List.mem_cons_of_mem _ hm')

/-- Splitting a list whose head is not a newline prepends the head to the
first piece of the split of the tail. -/
theorem jsSplitNl_cons_of_ne {c : Char} (hc : ¬ c = '\n') (t : List Char) :
    ∃ l ls, jsSplitNl t = l :: ls ∧ jsSplitNl (c :: t) = (c :: l) :: ls := by
  cases hs : jsSplitNl t with
  | nil => exact absurd hs (jsSplitNl_ne_nil t)
  | cons l ls =>
    refine ⟨l, ls, rfl, ?_⟩
    simp only [jsSplitNl, if_neg hc, hs]

/-- Taking `getLast?` of a cons with a nonempty tail is `getLast?` of the tail. -/
theorem getLastQ_cons_ne (a : Char) (t : List Char) (h : t ≠ []) :
    (a :: t).getLast? = t.getLast? := by
  cases t with
  | nil => exact absurd rfl h
  | cons b u => rfl

/-- Taking `getLast?` of an append with a nonempty right part. -/
theorem getLastQ_append (l₁ l₂ : List Char) (h : l₂ ≠ []) :
    (l₁ ++ l₂).getLast? = l₂.getLast? := by
  induction l₁ with
  | nil => rfl
  | cons a l₁ ih =>
    rw [List.cons_append, getLastQ_cons_ne a (l₁ ++ l₂) ?_, ih]
    intro habs
    exact h (List.append_eq_nil.1 habs).2

/-- A `getLast?` value is a member of the list. -/
theorem getLastQ_mem : ∀ {l : List Char} {c : Char}, l.getLast? = some c → c ∈ l := by
  intro l
  induction l with
  | nil => intro c h; simp at h
  | cons a t ih =>
    intro c h
    cases t with
    | nil =>
      simp [List.getLast?] at h
      simp [h]
    | cons b u =>
      rw [getLastQ_cons_ne a (b :: u) (by simp)] at h
      exact List.mem_cons_of_mem _ (ih h)

/-- Applying `joinSep` to a cons starts with the first piece. -/
theorem joinSep_cons (a : List Char) (as : List (List Char)) :
    ∃ u, joinSep (a :: as) = a ++ u := by
  cases as with
  | nil => exact ⟨[], by simp [joinSep]⟩
  | cons b bs => exact ⟨'\n' :: joinSep (b :: bs), rfl⟩

/-- Applying `joinSep` to a nonempty list of nonempty pieces, none ending in a
newline, is nonempty and does not end in a newline. -/
theorem joinSep_last : ∀ (ls : List (List Char)), ls ≠ [] →
    (∀ l ∈ ls, l ≠ [] ∧ l.getLast? ≠ some '\n') →
    joinSep ls ≠ [] ∧ (joinSep ls).getLast? ≠ some '\n' := by
  intro ls
  induction ls with
  | nil => intro h _; exact absurd rfl h
  | cons a as ih =>
    intro _ h
    cases as with
    | nil =>
      have := h a (List.mem_cons_self _ _)
      simpa [joinSep] using this
    | cons b bs =>
      have hb := ih (by simp) (fun l hl => h l (List.mem_cons_of_mem _ hl))
      have hje : joinSep (a :: b :: bs) = a ++ '\n' :: joinSep (b :: bs) := rfl
      constructor
      · rw [hje]
        simp
      · rw [hje, getLastQ_append _ _ (by simp), getLastQ_cons_ne _ _ hb.1]
        exact hb.2

/-! ## Lemmas about part rendering -/

/-- A rendered part starts with its two-character marker followed by the
first split piece. -/
theorem renderPart_head (t : Edit) (v : List Char) :
    ∃ l₀ w, renderPart t v = (markOf t ++ l₀) ++ w := by
  cases hm : jsSplitNl v with
  | nil => exact absurd hm (jsSplitNl_ne_nil v)
  | cons l₀ ls =>
    obtain ⟨u, hu⟩ := joinSep_cons (markOf t ++ l₀) (ls.map (fun l => markOf t ++ l))
    refine ⟨l₀, u, ?_⟩
    unfold renderPart
    rw [hm]
    simpa using hu

/-- A rendered added or removed part is nonempty and does not end in a
newline. -/
theorem renderPart_last (t : Edit) (ht : t ≠ Edit.keep) (v : List Char) :
    renderPart t v ≠ [] ∧ (renderPart t v).getLast? ≠ some '\n' := by
  unfold renderPart
  apply joinSep_last
  · cases hm : jsSplitNl v with
    | nil => exact absurd hm (jsSplitNl_ne_nil v)
    | cons l₀ ls => simp
  · intro l hl
    obtain ⟨m, hm, rfl⟩ := List.mem_map.1 hl
    have hmk : markOf t = ['+', ' '] ∨ markOf t = ['-', ' '] := by
      cases t with
      | keep => exact absurd rfl ht
      | add => exact Or.inl rfl
      | del => exact Or.inr rfl
    have hnl : '\n' ∉ m := jsSplitNl_no_nl hm
    constructor
    · rcases hmk with hmk | hmk <;> simp [hmk]
    · cases hme : m with
      | nil =>
        rcases hmk with hmk | hmk <;> simp [hmk]
      | cons x u =>
        rw [getLastQ_append _ _ (by simp)]
        intro habs
        exact hnl (hme ▸ getLastQ_mem habs)

/-! ## The rendering fold in closed form -/

/-- A keep part contributes nothing to the rendering. -/
theorem renderStep_keep (acc : List Char × Bool) (v : List Char) :
    renderStep acc (Edit.keep, v) = acc := rfl

/-- An added or removed part appends its rendering and one newline,
whatever the accumulated result was: the newline fixups of the source
always amount to exactly one appended newline, because the rendered part
itself never ends in a newline. -/
theorem renderStep_changed (acc : List Char) (hc : Bool) (t : Edit) (v : List Char)
    (ht : t ≠ Edit.keep) :
    renderStep (acc, hc) (t, v) = (acc ++ (renderPart t v ++ ['\n']), true) := by
  have h := renderPart_last t ht v
  have hlast : (acc ++ renderPart t v).getLast? ≠ some '\n' := by
    rw [getLastQ_append _ _ h.1]
    exact h.2
  cases t with
  | keep => exact absurd rfl ht
  | add =>
    simp only [renderStep]
    by_cases hv : v.getLast? = some '\n'
    · rw [if_pos hv, if_neg hlast]
      simp
    · rw [if_neg hv]
      simp
  | del =>
    simp only [renderStep]
    by_cases hv : v.getLast? = some '\n'
    · rw [if_pos hv, if_neg hlast]
      simp
    · rw [if_neg hv]
      simp

/-- Closed form of the rendering fold: the result is the concatenated
chunks of the changed parts, and the flag records whether any part was a
changed one. -/
theorem foldl_renderStep (parts : List (Edit × List Char)) :
    ∀ (acc : List Char) (hc : Bool),
      parts.foldl renderStep (acc, hc) =
        (acc ++ renderAll parts, hc || parts.any (fun e => e.1 ≠ Edit.keep)) := by
  induction parts with
  | nil => intro acc hc; simp [renderAll]
  | cons p rest ih =>
    intro acc hc
    obtain ⟨t, v⟩ := p
    by_cases ht : t = Edit.keep
    · subst ht
      rw [List.foldl_cons, renderStep_keep, ih]
      simp [renderAll]
    · rw [List.foldl_cons, renderStep_changed acc hc t v ht, ih]
      simp [renderAll, ht]

/-- A keep-only run contributes nothing to the closed-form rendering. -/
theorem renderAll_keep_append : ∀ (pre rest : List (Edit × List Char)),
    (∀ e ∈ pre, e.1 = Edit.keep) → renderAll (pre ++ rest) = renderAll rest := by
  intro pre
  induction pre with
  | nil => intro rest _; rfl
  | cons p ps ih =>
    intro rest h
    obtain ⟨t, v⟩ := p
    have ht : t = Edit.keep := h (t, v) (List.mem_cons_self _ _)
    rw [List.cons_append]
    simp only [renderAll, if_pos ht]
    exact ih rest (fun e he => h e (List.mem_cons_of_mem _ he))

/-- The first changed entry of a list with a changed entry, together with
the keep-only run before it. -/
theorem exists_first_changed : ∀ (l : List (Edit × List Char)),
    (¬ ∀ e ∈ l, e.1 = Edit.keep) →
    ∃ pre t v post, l = pre ++ (t, v) :: post ∧
      (∀ e ∈ pre, e.1 = Edit.keep) ∧ t ≠ Edit.keep := by
  intro l
  induction l with
  | nil => intro h; exact absurd (by simp) h
  | cons p rest ih =>
    intro h
    obtain ⟨t, v⟩ := p
    by_cases ht : t = Edit.keep
    · have h' : ¬ ∀ e ∈ rest, e.1 = Edit.keep := by
        intro hall
        apply h
        intro e he
        rcases List.mem_cons.1 he with rfl | he'
        · exact ht
        · exact hall e he'
      obtain ⟨pre, t', v', post, heq, hpre, ht'⟩ := ih h'
      refine ⟨(t, v) :: pre, t', v', post, by rw [List.cons_append, heq], ?_, ht'⟩
      intro e he
      rcases List.mem_cons.1 he with rfl | he'
      · exact ht
      · exact hpre e he'
    · exact ⟨[], t, v, rest, rfl, by simp, ht⟩

/-! ## The trailing-newline collapse keeps a non-newline head -/

/-- The function `dropWhile` distributes over an append. -/
theorem dropWhile_append_of (p : Char → Bool) (l₁ l₂ : List Char) :
    (l₁ ++ l₂).dropWhile p =
      if (l₁.dropWhile p).isEmpty then l₂.dropWhile p else l₁.dropWhile p ++ l₂ := by
  induction l₁ with
  | nil => simp
  | cons a l₁ ih =>
    by_cases hpa : p a
    · simp [List.dropWhile_cons, hpa, ih]
    · simp [List.dropWhile_cons, hpa]

/-- Collapsing trailing newlines keeps the first two characters when
neither is a newline. -/
theorem collapse_cons_cons (a b : Char) (t : List Char) (hb : ¬ b = '\n') :
    ∃ u, collapseTrailingNl (a :: b :: t) = a :: b :: u := by
  have hr : ∃ r₀, ((a :: b :: t).reverse).dropWhile (fun c => c = '\n') = r₀ ++ [b, a] := by
    rw [show (a :: b :: t).reverse = t.reverse ++ [b, a] by simp, dropWhile_append_of]
    by_cases he : ((t.reverse).dropWhile (fun c => c = '\n')).isEmpty
    · rw [if_pos he]
      refine ⟨[], ?_⟩
      simp [List.dropWhile_cons, hb]
    · rw [if_neg he]
      exact ⟨_, rfl⟩
  obtain ⟨r₀, hr⟩ := hr
  unfold collapseTrailingNl
  by_cases hlen :
      (((a :: b :: t).reverse).dropWhile (fun c => c = '\n')).length = (a :: b :: t).length
  · rw [if_pos hlen]
    exact ⟨t, rfl⟩
  · rw [if_neg hlen, hr]
    refine ⟨r₀.reverse ++ ['\n'], ?_⟩
    simp

/-- The rendering fold of an all-keep part list leaves the empty
accumulator and the unset flag untouched. -/
theorem foldl_renderStep_keep (parts : List (Edit × List Char))
    (h : ∀ e ∈ parts, e.1 = Edit.keep) :
    parts.foldl renderStep ([], false) = ([], false) := by
  rw [foldl_renderStep]
  have h1 : renderAll parts = [] := by
    have h2 := renderAll_keep_append parts [] h
    rwa [List.append_nil] at h2
  have h2 : parts.any (fun e => e.1 ≠ Edit.keep) = false := by
    simp only [List.any_eq_false]
    intro e he
    simp [h e he]
  rw [h1, h2]
  rfl

/-! ## Claims about the diff engine -/

/-- C8: for every text A, including the empty text, `calculateDiff`
applied to the pair (A, A) returns the Unchanged sentinel
"No textual differences found.", and `calculateDiff` is deterministic:
identical input pairs always produce identical results. -/
theorem calculateDiff_refl_deterministic :
    (∀ A : String, calculateDiff A A = noDiffSentinel) ∧
    (∀ A B A' B' : String, A = A' → B = B' → calculateDiff A B = calculateDiff A' B') := by
  constructor
  · intro A
    have hkeep : ∀ e ∈ mergeRuns (lineDiff (splitLinesKeepNl A.data) (splitLinesKeepNl A.data)),
        e.1 = Edit.keep := by
      apply mergeRuns_keep_of
      rw [lineDiff_self]
      intro e he
      obtain ⟨x, _, rfl⟩ := List.mem_map.1 he
      rfl
    simp only [calculateDiff]
    rw [foldl_renderStep_keep _ hkeep]
    rfl
  · intro A B A' B' h1 h2
    rw [h1, h2]

/-- C8 witness: the reflexivity conjunct at the empty text and the
determinism conjunct at a concrete pair. -/
theorem calculateDiff_refl_deterministic_witness :
    calculateDiff "" "" = noDiffSentinel ∧
    ("x" : String) = "x" ∧ ("y" : String) = "y" ∧
    calculateDiff "x" "y" = calculateDiff "x" "y" :=
  ⟨calculateDiff_refl_deterministic.1 "", rfl, rfl,
   calculateDiff_refl_deterministic.2 "x" "y" "x" "y" rfl rfl⟩

/-- C7: for all text pairs (A, B) with A ≠ B — equivalently, differing in
at least one whole line, since line tokenization is injective —
`calculateDiff` returns a Changed rendering: not the Unchanged sentinel,
nonempty, and containing at least one line marked as an addition
(written with a leading "+ ") or a removal (leading "- "). -/
theorem calculateDiff_changed_marked (A B : String) (h : A ≠ B) :
    calculateDiff A B ≠ noDiffSentinel ∧
    calculateDiff A B ≠ "" ∧
    ∃ l ∈ jsSplitNl (calculateDiff A B).data,
      l.take 2 = ['+', ' '] ∨ l.take 2 = ['-', ' '] := by
  have hs : splitLinesKeepNl A.data ≠ splitLinesKeepNl B.data := by
    intro he
    exact h (String.ext (splitLines_inj he))
  set parts := mergeRuns (lineDiff (splitLinesKeepNl A.data) (splitLinesKeepNl B.data))
    with hparts
  have hnotall : ¬ ∀ e ∈ parts, e.1 = Edit.keep := by
    intro hall
    exact hs (lineDiff_eq_of_allKeep (allKeep_of_mergeRuns _ hall))
  obtain ⟨pre, t, v, post, heq, hpre, ht⟩ := exists_first_changed parts hnotall
  have hany : parts.any (fun e => e.1 ≠ Edit.keep) = true := by
    rw [List.any_eq_true]
    refine ⟨(t, v), ?_, by simp [ht]⟩
    rw [heq]
    exact List.mem_append_right _ (List.mem_cons_self _ _)
  obtain ⟨m₁, m₂, hmk, hm₁, hm₂⟩ :
      ∃ m₁ m₂, markOf t = [m₁, m₂] ∧ ¬ m₁ = '\n' ∧ ¬ m₂ = '\n' := by
    cases t with
    | keep => exact absurd rfl ht
    | add => exact ⟨'+', ' ', rfl, by decide, by decide⟩
    | del => exact ⟨'-', ' ', rfl, by decide, by decide⟩
  have hmtake : [m₁, m₂] = ['+', ' '] ∨ [m₁, m₂] = ['-', ' '] := by
    cases t with
    | keep => exact absurd rfl ht
    | add => exact Or.inl (by rw [← hmk]; rfl)
    | del => exact Or.inr (by rw [← hmk]; rfl)
  obtain ⟨l₀, w, hrp⟩ := renderPart_head t v
  obtain ⟨z, hra⟩ : ∃ z, renderAll parts = m₁ :: m₂ :: z := by
    rw [heq, renderAll_keep_append pre _ hpre]
    simp only [renderAll, if_neg ht]
    rw [hrp, hmk]
    exact ⟨l₀ ++ (w ++ '\n' :: renderAll post), by simp⟩
  obtain ⟨u, hcol⟩ := collapse_cons_cons m₁ m₂ z hm₂
  have hres : calculateDiff A B = String.mk (m₁ :: m₂ :: u) := by
    simp only [calculateDiff]
    rw [← hparts, foldl_renderStep, List.nil_append, hany, hra]
    simp only [Bool.or_true]
    rw [if_neg (by decide : ¬ (true = false)), hcol]
  refine ⟨?_, ?_, ?_⟩
  · rw [hres]
    intro habs
    have hd : m₁ :: m₂ :: u = noDiffSentinel.data := congrArg String.data habs
    have ht2 : (m₁ :: m₂ :: u).take 2 = noDiffSentinel.data.take 2 := by rw [hd]
    have hNo : noDiffSentinel.data.take 2 = ['N', 'o'] := rfl
    rw [hNo, show (m₁ :: m₂ :: u).take 2 = [m₁, m₂] from rfl] at ht2
    rcases hmtake with hm | hm <;> rw [hm] at ht2 <;> exact absurd ht2 (by decide)
  · rw [hres]
    intro habs
    have hd : m₁ :: m₂ :: u = ("" : String).data := congrArg String.data habs
    simp at hd
  · rw [hres]
    obtain ⟨l₂, ls₂, hsp₂, hcons₂⟩ := jsSplitNl_cons_of_ne hm₂ u
    obtain ⟨l₁, ls₁, hsp₁, hcons₁⟩ := jsSplitNl_cons_of_ne hm₁ (m₂ :: u)
    rw [hcons₂] at hsp₁
    obtain ⟨hl₁, hls₁⟩ := List.cons.inj hsp₁
    refine ⟨m₁ :: l₁, ?_, ?_⟩
    · rw [show (String.mk (m₁ :: m₂ :: u)).data = m₁ :: m₂ :: u from rfl, hcons₁]
      exact List.mem_cons_self _ _
    · rw [← hl₁, show (m₁ :: m₂ :: l₂).take 2 = [m₁, m₂] from rfl]
      exact hmtake

/-- C7 witness: the theorem applied to the concrete pair
("a\n", "b\n"). -/
theorem calculateDiff_changed_marked_witness :
    ("a\n" : String) ≠ "b\n" ∧
    (calculateDiff "a\n" "b\n" ≠ noDiffSentinel ∧
     calculateDiff "a\n" "b\n" ≠ "" ∧
     ∃ l ∈ jsSplitNl (calculateDiff "a\n" "b\n").data,
       l.take 2 = ['+', ' '] ∨ l.take 2 = ['-', ' ']) :=
  ⟨by decide, calculateDiff_changed_marked "a\n" "b\n" (by decide)⟩

/-! ## Helper lemmas for the retry loop -/

/-- A successful attempt ends the retry loop at once. -/
theorem withRetry_ok (f : Nat → Except String α) (a fuel : Nat) (x : α)
    (h : f a = Except.ok x) : withRetry f a fuel = Except.ok x := by
  unfold withRetry
  rw [h]

/-- With no fuel left, a failed attempt is rethrown. -/
theorem withRetry_error_zero (f : Nat → Except String α) (a : Nat) (e : String)
    (h : f a = Except.error e) : withRetry f a 0 = Except.error e := by
  unfold withRetry
  rw [h]

/-- With fuel left, a failed attempt moves on to the next attempt. -/
theorem withRetry_error_succ (f : Nat → Except String α) (a fuel : Nat) (e : String)
    (h : f a = Except.error e) : withRetry f a (fuel + 1) = withRetry f (a + 1) fuel := by
  conv_lhs => unfold withRetry
  rw [h]

/-! ## Claims about the detection cycle -/

/-- C5: on the first observation of a source (no prior snapshot), the
detection cycle stores the fetched normalised content as the snapshot
and returns NoChange; no draft is created and no notification is sent,
regardless of the fetched content. -/
theorem detect_first_run (env : CycleEnv) (content : String)
    (hfetch : withRetryRun RETRY_CONFIG env.fetchOracle = Except.ok content) :
    handleScheduledCycle env none =
      { snapshot := some content, newDraft := none,
        result := CycleResult.noChange, notices := [] } := by
  simp only [handleScheduledCycle, detectCycle, hfetch]

/-- C5 witness: the theorem at a concrete environment fetching "hello". -/
theorem detect_first_run_witness :
    withRetryRun RETRY_CONFIG (fun _ => Except.ok "hello") = Except.ok "hello" ∧
    handleScheduledCycle
        { fetchOracle := fun _ => Except.ok "hello", recap := some "r", draftId := "id",
          url := "u", timestampStr := "t", now := 0 } none =
      { snapshot := some "hello", newDraft := none,
        result := CycleResult.noChange, notices := [] } :=
  ⟨rfl, detect_first_run _ "hello" rfl⟩

/-- C9: when every fetch attempt fails, the bounded retries (attempts 1,
2 and 3) exhaust and the detection cycle aborts with an error report:
the snapshot is untouched, no draft is created, and the persisted state
after the failed cycle equals the persisted state before it. -/
theorem detect_fetch_failure (env : CycleEnv) (snap : Option String) (e₁ e₂ e₃ : String)
    (h1 : env.fetchOracle 1 = Except.error e₁)
    (h2 : env.fetchOracle 2 = Except.error e₂)
    (h3 : env.fetchOracle 3 = Except.error e₃) :
    handleScheduledCycle env snap =
      { snapshot := snap, newDraft := none,
        result := CycleResult.cycleError e₃, notices := [Notice.errorReport] } := by
  have hr : withRetryRun RETRY_CONFIG env.fetchOracle = Except.error e₃ := by
    show withRetry env.fetchOracle 1 2 = Except.error e₃
    rw [withRetry_error_succ _ _ _ _ h1, withRetry_error_succ _ _ _ _ h2,
      withRetry_error_zero _ _ _ h3]
  simp only [handleScheduledCycle, detectCycle, hr]

/-- C9 witness: the theorem at a concrete environment whose every fetch
attempt fails. -/
theorem detect_fetch_failure_witness :
    ((fun _ => Except.error "boom" : Nat → Except String String) 1 = Except.error "boom") ∧
    handleScheduledCycle
        { fetchOracle := fun _ => Except.error "boom", recap := some "r", draftId := "id",
          url := "u", timestampStr := "t", now := 0 } (some "base") =
      { snapshot := some "base", newDraft := none,
        result := CycleResult.cycleError "boom", notices := [Notice.errorReport] } :=
  ⟨rfl, detect_fetch_failure _ (some "base") "boom" "boom" "boom" rfl rfl rfl⟩

/-- C1 (amended): in a cycle where the stored snapshot exists, the
fetched normalised content differs from it byte-wise, and the diff
engine classifies the pair as Unchanged (returns the sentinel), the
cycle returns NoChange, creates no draft and sends no notification —
but the stored snapshot IS overwritten with the new content: the put of
src/index.ts line 253 runs at the end of the changed branch regardless
of the diff classification, so the old baseline is not preserved. -/
theorem detect_unchanged_overwrites (d : String → String → String) (env : CycleEnv)
    (prev content : String)
    (hfetch : withRetryRun RETRY_CONFIG env.fetchOracle = Except.ok content)
    (hne : prev ≠ content) (hd : d prev content = noDiffSentinel) :
    detectCycle d env (some prev) =
      { snapshot := some content, newDraft := none,
        result := CycleResult.noChange, notices := [] } := by
  simp [detectCycle, hfetch, hne, hd]

/-- C1 witness: the amended theorem at a concrete cycle with snapshot
"a", fetched content "b" and a diff engine returning the sentinel. -/
theorem detect_unchanged_overwrites_witness :
    withRetryRun RETRY_CONFIG (fun _ => Except.ok "b") = Except.ok "b" ∧
    ("a" : String) ≠ "b" ∧
    (fun _ _ => noDiffSentinel : String → String → String) "a" "b" = noDiffSentinel ∧
    detectCycle (fun _ _ => noDiffSentinel)
        { fetchOracle := fun _ => Except.ok "b", recap := some "r", draftId := "id",
          url := "u", timestampStr := "t", now := 0 } (some "a") =
      { snapshot := some "b", newDraft := none,
        result := CycleResult.noChange, notices := [] } :=
  ⟨rfl, by decide, rfl,
   detect_unchanged_overwrites _ _ "a" "b" rfl (by decide) rfl⟩

/-- C1 counterexample: under exactly the conditions of the claim
(snapshot present, content differing, diff engine classifying the pair
as Unchanged) the cycle returns NoChange but the stored snapshot does
not stay at its old value, contradicting the claim that the old
baseline is preserved. -/
theorem detect_unchanged_overwrites_counterexample :
    ("a" : String) ≠ "b" ∧
    (fun _ _ => noDiffSentinel : String → String → String) "a" "b" = noDiffSentinel ∧
    (detectCycle (fun _ _ => noDiffSentinel)
        { fetchOracle := fun _ => Except.ok "b", recap := some "r", draftId := "id",
          url := "u", timestampStr := "t", now := 0 } (some "a")).result =
      CycleResult.noChange ∧
    (detectCycle (fun _ _ => noDiffSentinel)
        { fetchOracle := fun _ => Except.ok "b", recap := some "r", draftId := "id",
          url := "u", timestampStr := "t", now := 0 } (some "a")).snapshot ≠ some "a" := by
  refine ⟨by decide, rfl, by decide, by decide⟩


/-! ## Claims about confirmation -/

/-- C6: confirming a draft id whose record is absent (never created) or
expired returns NotFound, reports a not-found-or-expired failure to the
human, invokes the publisher zero times and leaves the stored record
unchanged.  The embedding is a total function: the handler resolves
every such request without throwing. -/
theorem confirm_not_found (now : Nat) (entry : Option PostEntry) (ok : Bool)
    (h : kvGetPost now entry = none) :
    confirmStep now entry ok =
      { entry := entry, result := ConfirmResult.notFound, pubCalls := 0,
        notices := [Notice.notFoundExpired] } := by
  simp only [confirmStep, h]

/-- C6 witness: the theorem at an absent record and at an expired
record. -/
theorem confirm_not_found_witness :
    kvGetPost 3 (none : Option PostEntry) = none ∧
    confirmStep 3 none true =
      { entry := none, result := ConfirmResult.notFound, pubCalls := 0,
        notices := [Notice.notFoundExpired] } ∧
    kvGetPost 10
      (some
        { data :=
            { recap := "r", diff := "d", originalChangelogUrl := "u",
              timestamp := "t", status := PostStatus.pendingConfirmation },
          expiresAt := some 5 }) = none ∧
    confirmStep 10
      (some
        { data :=
            { recap := "r", diff := "d", originalChangelogUrl := "u",
              timestamp := "t", status := PostStatus.pendingConfirmation },
          expiresAt := some 5 }) false =
      { entry :=
          some
            { data :=
                { recap := "r", diff := "d", originalChangelogUrl := "u",
                  timestamp := "t", status := PostStatus.pendingConfirmation },
              expiresAt := some 5 },
        result := ConfirmResult.notFound, pubCalls := 0,
        notices := [Notice.notFoundExpired] } :=
  ⟨rfl, confirm_not_found 3 none true rfl, by decide,
   confirm_not_found 10 _ false (by decide)⟩

/-- C4 (amended): only the creation write carries a bounded lifetime:
a draft created by a detection cycle is persisted with expiry
now + 86400 seconds (the expirationTtl of src/index.ts line 244), while
the confirm-outcome writes (lines 373 and 377) persist the PUBLISHED or
PUBLISH_FAILED record through a put without expirationTtl, so those
records carry no expiration and are not subject to expiry. -/
theorem draft_ttl_amended :
    (∀ (d : String → String → String) (env : CycleEnv) (snap : Option String)
        (key : String) (pe : PostEntry),
        (detectCycle d env snap).newDraft = some (key, pe) →
        pe.expiresAt = some (env.now + 86400)) ∧
    (∀ (now : Nat) (entry : Option PostEntry) (ok : Bool) (post : PendingPostData),
        kvGetPost now entry = some post → post.status = PostStatus.pendingConfirmation →
        ∃ q, (confirmStep now entry ok).entry = some q ∧ q.expiresAt = none ∧
          (q.data.status = PostStatus.postedToX ∨ q.data.status = PostStatus.failedToPost)) := by
  constructor
  · intro d env snap key pe h
    unfold detectCycle at h
    repeat' split at h
    all_goals simp_all
    obtain ⟨h1, h2⟩ := h
    subst h2
    rfl
  · intro now entry ok post hget hst
    have h1 : ¬ (post.status = PostStatus.postedToX) := by rw [hst]; decide
    have h2 : ¬ (post.status ≠ PostStatus.pendingConfirmation) := by rw [hst]; simp
    cases ok with
    | true =>
      refine ⟨{ data := { post with status := PostStatus.postedToX }, expiresAt := none },
        ?_, rfl, Or.inl rfl⟩
      simp [confirmStep, hget, h1, h2]
    | false =>
      refine ⟨{ data := { post with status := PostStatus.failedToPost }, expiresAt := none },
        ?_, rfl, Or.inr rfl⟩
      simp [confirmStep, hget, h1, h2]

/-- C4 witness: the creation conjunct at a concrete cycle that creates a
draft, and the confirm conjunct at a concrete pending record. -/
theorem draft_ttl_amended_witness :
    (detectCycle (fun _ _ => "x")
        { fetchOracle := fun _ => Except.ok "b", recap := some "r", draftId := "id",
          url := "u", timestampStr := "t", now := 5 } (some "a")).newDraft =
      some ("post:id",
        { data :=
            { recap := "r", diff := "x", originalChangelogUrl := "u",
              timestamp := "t", status := PostStatus.pendingConfirmation },
          expiresAt := some (5 + 86400) }) ∧
    ({ data :=
         { recap := "r", diff := "x", originalChangelogUrl := "u",
           timestamp := "t", status := PostStatus.pendingConfirmation },
       expiresAt := some (5 + 86400) } : PostEntry).expiresAt = some (5 + 86400) ∧
    kvGetPost 10
      (some
        { data :=
            { recap := "r", diff := "d", originalChangelogUrl := "u",
              timestamp := "t", status := PostStatus.pendingConfirmation },
          expiresAt := some 86400 }) =
      some ({ recap := "r", diff := "d", originalChangelogUrl := "u",
              timestamp := "t", status := PostStatus.pendingConfirmation } :
        PendingPostData) ∧
    ∃ q, (confirmStep 10
        (some
          { data :=
              { recap := "r", diff := "d", originalChangelogUrl := "u",
                timestamp := "t", status := PostStatus.pendingConfirmation },
            expiresAt := some 86400 }) true).entry = some q ∧
      q.expiresAt = none ∧
      (q.data.status = PostStatus.postedToX ∨ q.data.status = PostStatus.failedToPost) := by
  refine ⟨by decide, ?_, by decide, ?_⟩
  · exact draft_ttl_amended.1 (fun _ _ => "x")
      { fetchOracle := fun _ => Except.ok "b", recap := some "r", draftId := "id",
        url := "u", timestampStr := "t", now := 5 } (some "a") "post:id" _ (by decide)
  · exact draft_ttl_amended.2 10 _ true
      { recap := "r", diff := "d", originalChangelogUrl := "u",
        timestamp := "t", status := PostStatus.pendingConfirmation } (by decide) rfl

/-- C4 counterexample: the write recording the PUBLISHED outcome of a
confirm call persists the record with no expiration at all, refuting
the claim that every draft write carries a bounded lifetime. -/
theorem draft_ttl_counterexample :
    (confirmStep 0
        (some
          { data :=
              { recap := "r", diff := "d", originalChangelogUrl := "u",
                timestamp := "t", status := PostStatus.pendingConfirmation },
            expiresAt := some 86400 }) true).entry =
      some
        { data :=
            { recap := "r", diff := "d", originalChangelogUrl := "u",
              timestamp := "t", status := PostStatus.postedToX },
          expiresAt := none } := by decide

/-- C3: two sequential confirm calls on a PENDING draft: the first call
transitions the draft to PUBLISHED or PUBLISH_FAILED; the second call
returns AlreadyPublished when the draft is PUBLISHED and NotPending
otherwise, without changing the draft record; the publisher is invoked
exactly once across both calls; and no confirm call ever transitions a
draft out of the PUBLISHED state. -/
theorem confirm_twice_sequential (e : Option PostEntry) (post : PendingPostData)
    (n₁ n₂ : Nat) (ok₁ ok₂ : Bool)
    (hget : kvGetPost n₁ e = some post)
    (hst : post.status = PostStatus.pendingConfirmation) :
    ((∃ q, (confirmStep n₁ e ok₁).entry = some q ∧
        (q.data.status = PostStatus.postedToX ∨ q.data.status = PostStatus.failedToPost)) ∧
     ((confirmStep n₁ e ok₁).result = ConfirmResult.published ∨
      (confirmStep n₁ e ok₁).result = ConfirmResult.publishFailed) ∧
     (confirmStep n₂ (confirmStep n₁ e ok₁).entry ok₂).result =
       (if ok₁ then ConfirmResult.alreadyPublished else ConfirmResult.notPending) ∧
     (confirmStep n₂ (confirmStep n₁ e ok₁).entry ok₂).entry = (confirmStep n₁ e ok₁).entry ∧
     (confirmStep n₁ e ok₁).pubCalls +
       (confirmStep n₂ (confirmStep n₁ e ok₁).entry ok₂).pubCalls = 1) ∧
    (∀ (n : Nat) (e' : Option PostEntry) (ok : Bool) (p : PendingPostData),
      kvGetPost n e' = some p → p.status = PostStatus.postedToX →
      (confirmStep n e' ok).entry = e' ∧ (confirmStep n e' ok).pubCalls = 0) := by
  have h1 : ¬ (post.status = PostStatus.postedToX) := by rw [hst]; decide
  have h2 : ¬ (post.status ≠ PostStatus.pendingConfirmation) := by rw [hst]; simp
  constructor
  · cases ok₁ with
    | true =>
      have hc1 : confirmStep n₁ e true =
          { entry := some { data := { post with status := PostStatus.postedToX },
                            expiresAt := none },
            result := ConfirmResult.published, pubCalls := 1,
            notices := [Notice.postSuccess] } := by
        simp [confirmStep, hget, h1, h2]
      have hc2 : confirmStep n₂
          (some { data := { post with status := PostStatus.postedToX },
                  expiresAt := none }) ok₂ =
          { entry := some { data := { post with status := PostStatus.postedToX },
                            expiresAt := none },
            result := ConfirmResult.alreadyPublished, pubCalls := 0,
            notices := [Notice.alreadyPublishedInfo] } := rfl
      rw [hc1]
      refine ⟨⟨_, rfl, Or.inl rfl⟩, Or.inl rfl, ?_, ?_, ?_⟩
      · rw [hc2]
        rfl
      · rw [hc2]
      · rw [hc2]
        rfl
    | false =>
      have hc1 : confirmStep n₁ e false =
          { entry := some { data := { post with status := PostStatus.failedToPost },
                            expiresAt := none },
            result := ConfirmResult.publishFailed, pubCalls := 1,
            notices := [Notice.postFailure] } := by
        simp [confirmStep, hget, h1, h2]
      have hc2 : confirmStep n₂
          (some { data := { post with status := PostStatus.failedToPost },
                  expiresAt := none }) ok₂ =
          { entry := some { data := { post with status := PostStatus.failedToPost },
                            expiresAt := none },
            result := ConfirmResult.notPending, pubCalls := 0,
            notices := [Notice.notPendingError] } := rfl
      rw [hc1]
      refine ⟨⟨_, rfl, Or.inr rfl⟩, Or.inr rfl, ?_, ?_, ?_⟩
      · rw [hc2]
        rfl
      · rw [hc2]
      · rw [hc2]
        rfl
  · intro n e' ok p hget' hst'
    constructor <;> simp [confirmStep, hget', hst']

/-- C3 witness: the theorem at a concrete pending record, with the first
call at time 0 succeeding and the second at time 7. -/
theorem confirm_twice_sequential_witness :
    kvGetPost 0
      (some
        { data :=
            { recap := "r", diff := "d", originalChangelogUrl := "u",
              timestamp := "t", status := PostStatus.pendingConfirmation },
          expiresAt := some 100 }) =
      some ({ recap := "r", diff := "d", originalChangelogUrl := "u",
              timestamp := "t", status := PostStatus.pendingConfirmation } :
        PendingPostData) ∧
    ({ recap := "r", diff := "d", originalChangelogUrl := "u",
       timestamp := "t", status := PostStatus.pendingConfirmation } :
      PendingPostData).status = PostStatus.pendingConfirmation ∧
    (confirmStep 7 (confirmStep 0
        (some
          { data :=
              { recap := "r", diff := "d", originalChangelogUrl := "u",
                timestamp := "t", status := PostStatus.pendingConfirmation },
            expiresAt := some 100 }) true).entry false).result =
      ConfirmResult.alreadyPublished ∧
    (confirmStep 0
        (some
          { data :=
              { recap := "r", diff := "d", originalChangelogUrl := "u",
                timestamp := "t", status := PostStatus.pendingConfirmation },
            expiresAt := some 100 }) true).pubCalls +
      (confirmStep 7 (confirmStep 0
        (some
          { data :=
              { recap := "r", diff := "d", originalChangelogUrl := "u",
                timestamp := "t", status := PostStatus.pendingConfirmation },
            expiresAt := some 100 }) true).entry false).pubCalls = 1 := by
  refine ⟨by decide, rfl, ?_, ?_⟩
  · exact (confirm_twice_sequential _
      { recap := "r", diff := "d", originalChangelogUrl := "u",
        timestamp := "t", status := PostStatus.pendingConfirmation }
      0 7 true false (by decide) rfl).1.2.2.1
  · exact (confirm_twice_sequential _
      { recap := "r", diff := "d", originalChangelogUrl := "u",
        timestamp := "t", status := PostStatus.pendingConfirmation }
      0 7 true false (by decide) rfl).1.2.2.2.2

/-- C2: the source violates the concurrency invariant.  The confirm
handler is a plain read-check-act over KV — the get (line 347), the
postToX call (line 370) and the put (lines 373/377) are separate
awaited steps with no compare-and-swap — so under the interleaving in
which both invocations perform their read before either write, both
observe the PENDING draft, neither returns AlreadyPublished or
NotPending, and the publisher is invoked twice for the same draft. -/
theorem confirm_race_double_publish :
    (runRace 0 true true [true, false, true, true, false, false]
        { shared :=
            some
              { data :=
                  { recap := "r", diff := "d", originalChangelogUrl := "u",
                    timestamp := "t", status := PostStatus.pendingConfirmation },
                expiresAt := some 1000 },
          locA := ConfLoc.atStart, locB := ConfLoc.atStart, pubCalls := 0 }).pubCalls = 2 ∧
    (runRace 0 true true [true, false, true, true, false, false]
        { shared :=
            some
              { data :=
                  { recap := "r", diff := "d", originalChangelogUrl := "u",
                    timestamp := "t", status := PostStatus.pendingConfirmation },
                expiresAt := some 1000 },
          locA := ConfLoc.atStart, locB := ConfLoc.atStart, pubCalls := 0 }).locA =
      ConfLoc.finishedAt ConfirmResult.published ∧
    (runRace 0 true true [true, false, true, true, false, false]
        { shared :=
            some
              { data :=
                  { recap := "r", diff := "d", originalChangelogUrl := "u",
                    timestamp := "t", status := PostStatus.pendingConfirmation },
                expiresAt := some 1000 },
          locA := ConfLoc.atStart, locB := ConfLoc.atStart, pubCalls := 0 }).locB =
      ConfLoc.finishedAt ConfirmResult.published := by decide

/-! ## Claim about the tweet truncation -/

/-- C10: the text handed to the external publisher by postToX is at most
280 characters long: a recap of length at most 280 is published
verbatim, and a longer recap is cut to its first 277 characters
followed by "...". -/
theorem postToXTweetText_bounded :
    (∀ recap : String, (postToXTweetText recap).length ≤ 280) ∧
    (∀ recap : String, recap.length ≤ 280 → postToXTweetText recap = recap) ∧
    (∀ recap : String, 280 < recap.length →
      postToXTweetText recap = String.mk (recap.data.take 277) ++ "...") := by
  have hlen : ∀ l : List Char, (String.mk l ++ "...").length = l.length + 3 := by
    intro l
    show (l ++ "...".data).length = l.length + 3
    rw [List.length_append]
    rfl
  refine ⟨?_, ?_, ?_⟩
  · intro recap
    unfold postToXTweetText
    by_cases h : recap.length > MAX_TWEET_LENGTH
    · rw [if_pos h, hlen, List.length_take]
      simp only [MAX_TWEET_LENGTH]
      omega
    · rw [if_neg h]
      unfold MAX_TWEET_LENGTH at h
      omega
  · intro recap h
    unfold postToXTweetText
    rw [if_neg ?_]
    unfold MAX_TWEET_LENGTH
    omega
  · intro recap h
    unfold postToXTweetText
    rw [if_pos ?_]
    · rfl
    · unfold MAX_TWEET_LENGTH
      omega

set_option maxRecDepth 4000 in
/-- C10 witness: the theorem at a 300-character recap and at the short
recap "hi". -/
theorem postToXTweetText_bounded_witness :
    (postToXTweetText (String.mk (List.replicate 300 'a'))).length ≤ 280 ∧
    ("hi" : String).length ≤ 280 ∧
    postToXTweetText "hi" = "hi" ∧
    280 < (String.mk (List.replicate 300 'a')).length ∧
    postToXTweetText (String.mk (List.replicate 300 'a')) =
      String.mk ((String.mk (List.replicate 300 'a')).data.take 277) ++ "..." :=
  ⟨postToXTweetText_bounded.1 _, by decide,
   postToXTweetText_bounded.2.1 "hi" (by decide), by decide,
   postToXTweetText_bounded.2.2 _ (by decide)⟩
